import Mathlib

/-!
Verification of the batched SDF evaluator in tpu_handler.py.

Floating-point scalars are modelled by real numbers (exact arithmetic).
Python's floating modulo `v % p` (sign of the divisor, numpy semantics)
is modelled by `pymod v p = v - p * ⌊v / p⌋`, which agrees with the
float semantics for every nonzero period `p`.
The mutable state the claims mention (the handler's `available` flag,
the caller's input data) is threaded explicitly: `computeSt` returns the
handler and the input data as they stand after the call, alongside the
result list, mirroring the source statement by statement.
-/

noncomputable section

/-- A 3-component position, one row of `data['positions']`. -/
structure Pos3 where
  x : ℝ
  y : ℝ
  z : ℝ

/-- The input dict passed to `TPUHandler.compute` / `_cpu_fallback`:
`positions` (a list of 3D positions) and `dims` (the 4th and 5th
dimension values). -/
structure InputData where
  positions : List Pos3
  dims : ℝ × ℝ

/-- The handler state relevant to compute: `self.available`, set once in
`__init__` from the hardware probe. -/
structure Handler where
  available : Bool

/-- Python / numpy floating modulo: the remainder has the sign of the
divisor, `v % p = v - p * floor (v / p)`. Faithful to the float
semantics for `p ≠ 0` (for `p = 0` numpy yields NaN, outside this
embedding's domain). -/
def pymod (v p : ℝ) : ℝ := v - p * ⌊v / p⌋

/-- Source line 108/109: `(q[a] + dims[i]*0.5) % dims[i] - dims[i]*0.5`. -/
def wrap (v p : ℝ) : ℝ := pymod (v + p * 0.5) p - p * 0.5

/-- Source lines 107–109: `q = pos.copy()`, then `q[0]` and `q[2]` are
overwritten with their wrapped values (`q[1]` untouched). Returns the
position array as it stands after the iteration (unchanged, since the
mutations hit the fresh copy `q`) together with the final `q`. -/
def wrapPoint (pos : Pos3) (dims : ℝ × ℝ) : Pos3 × Pos3 :=
  let q := pos
  let q1 := { q with x := wrap q.x dims.1 }
  let q2 := { q1 with z := wrap q1.z dims.2 }
  (pos, q2)

/-- The per-point SDF of the CPU path, source lines 107–112:
wrap `x` and `z`, keep `y`, then `sqrt(sum(q**2)) - 1.0`. -/
def sdfPoint (pos : Pos3) (dims : ℝ × ℝ) : ℝ :=
  let q := (wrapPoint pos dims).2
  Real.sqrt (q.x ^ 2 + q.y ^ 2 + q.z ^ 2) - 1.0

/-- The loop of `_cpu_fallback` (source lines 104–113): iterate over the
positions, append one distance per position. Returns the list of
position arrays as they stand after the loop together with the
accumulated `results`. -/
def cpuLoop (dims : ℝ × ℝ) : List Pos3 → List Pos3 × List ℝ
  | [] => ([], [])
  | pos :: rest =>
    let s := wrapPoint pos dims
    let d := Real.sqrt (s.2.x ^ 2 + s.2.y ^ 2 + s.2.z ^ 2) - 1.0
    let t := cpuLoop dims rest
    (s.1 :: t.1, d :: t.2)

/-- `TPUHandler._cpu_fallback` (source lines 96–117): `positions` and
`dims` are read out of the dict into fresh arrays (`np.array` copies),
the loop runs, and the `sdf_values` list is returned. The first
component is the caller's input data as it stands after the call. -/
def cpuFallbackSt (data : InputData) : InputData × List ℝ :=
  let arr := data.positions
  let t := cpuLoop data.dims arr
  (data, t.2)

/-- Modelled from the spec: the accelerator's model and runtime are
external to the repository. Per the spec's interface the accelerator is
an opaque capability — given 5 floats it returns 1 float, or the whole
invocation fails with a runtime error. One `compute` call's invocation
outcome is therefore either `fail`, or `ok f` for some per-row
function `f`. -/
inductive AccelOutcome where
  | fail : AccelOutcome
  | ok : (ℝ → ℝ → ℝ → ℝ → ℝ → ℝ) → AccelOutcome

/-- One row of the `N × 5` input tensor. -/
structure Row5 where
  x : ℝ
  y : ℝ
  z : ℝ
  d0 : ℝ
  d1 : ℝ

/-- Source lines 75–79: `input_data[:, 0:3] = positions`,
`input_data[:, 3] = dims[0]`, `input_data[:, 4] = dims[1]`. -/
def mkInput (positions : List Pos3) (dims : ℝ × ℝ) : List Row5 :=
  positions.map fun p => ⟨p.x, p.y, p.z, dims.1, dims.2⟩

/-- `TPUHandler.compute` (source lines 54–94), with the handler state
and the caller's input data threaded through. If `self.available` is
false, return `_cpu_fallback(data)`. Otherwise build the `N × 5` tensor
and invoke the interpreter; any exception from the try block is caught
and answered by `_cpu_fallback(data)`. `compute` contains no assignment
to `self.available` and no dims validation, and the TPU branch builds
its tensor from fresh arrays, so both threaded components pass through
unchanged. -/
def computeSt (h : Handler) (acc : AccelOutcome) (data : InputData) :
    Handler × InputData × List ℝ :=
  if h.available = false then
    let t := cpuFallbackSt data
    (h, t.1, t.2)
  else
    match acc with
    | .fail =>
      let t := cpuFallbackSt data
      (h, t.1, t.2)
    | .ok f =>
      let rows := mkInput data.positions data.dims
      (h, data, rows.map fun r => f r.x r.y r.z r.d0 r.d1)

/-- The interpreter invocation is guarded only by `self.available`
(source line 66): there is no empty-batch check anywhere in `compute`,
so on the available path the invocation is attempted for any batch
size, including `N = 0`. -/
def accelInvoked (h : Handler) (_data : InputData) : Bool :=
  h.available

/-- The wrap transform exactly as the claim words it:
`wrap(v, p) = ((v + p/2) mod p) - p/2`. -/
def wrapSpec (v p : ℝ) : ℝ := pymod (v + p / 2) p - p / 2

/-- The per-point SDF exactly as the claim words it: wrap `x` with
period `dims[0]` and `z` with period `dims[1]`, leave `y` unchanged,
and return the Euclidean norm of the resulting 3-vector minus `1.0`. -/
def sdfSpec (pos : Pos3) (dims : ℝ × ℝ) : ℝ :=
  Real.sqrt (wrapSpec pos.x dims.1 ^ 2 + pos.y ^ 2 + wrapSpec pos.z dims.2 ^ 2) - 1.0

lemma pymod_eq_fract (v p : ℝ) (hp : p ≠ 0) : pymod v p = p * Int.fract (v / p) := by
  unfold pymod Int.fract
  rw [mul_sub, mul_div_cancel₀ v hp]

lemma pymod_nonneg (v p : ℝ) (hp : 0 < p) : 0 ≤ pymod v p := by
  rw [pymod_eq_fract v p hp.ne']
  exact mul_nonneg hp.le (Int.fract_nonneg _)

lemma pymod_lt (v p : ℝ) (hp : 0 < p) : pymod v p < p := by
  rw [pymod_eq_fract v p hp.ne']
  calc p * Int.fract (v / p) < p * 1 := by
        exact mul_lt_mul_of_pos_left (Int.fract_lt_one _) hp
    _ = p := mul_one p

lemma pymod_add_int_mul (v p : ℝ) (k : ℤ) (hp : p ≠ 0) :
    pymod (v + k * p) p = pymod v p := by
  rw [pymod_eq_fract _ _ hp, pymod_eq_fract _ _ hp]
  congr 1
  rw [add_div, mul_div_assoc, div_self hp, mul_one, Int.fract_add_int]

lemma wrap_lower (v p : ℝ) (hp : 0 < p) : -(p / 2) ≤ wrap v p := by
  have h := pymod_nonneg (v + p * 0.5) p hp
  unfold wrap
  have h05 : p * 0.5 = p / 2 := by ring
  linarith

lemma wrap_upper (v p : ℝ) (hp : 0 < p) : wrap v p < p / 2 := by
  have h := pymod_lt (v + p * 0.5) p hp
  unfold wrap
  have h05 : p * 0.5 = p / 2 := by ring
  linarith

lemma wrap_periodic (v p : ℝ) (k : ℤ) (hp : p ≠ 0) :
    wrap (v + k * p) p = wrap v p := by
  unfold wrap
  rw [show v + k * p + p * 0.5 = v + p * 0.5 + k * p by ring,
    pymod_add_int_mul _ _ _ hp]

lemma floor_neg_point_one : ⌊(-0.1 : ℝ)⌋ = -1 := by
  rw [Int.floor_eq_iff]
  constructor <;> norm_num

lemma wrap_example : wrap (-0.6) 1 = 0.4 := by
  have hv : (-0.6 : ℝ) + 1 * 0.5 = -0.1 := by norm_num
  unfold wrap pymod
  rw [hv, div_one, floor_neg_point_one]
  norm_num

lemma floor_point_five : ⌊(0.5 : ℝ)⌋ = 0 := by
  rw [Int.floor_eq_iff]
  constructor <;> norm_num

lemma wrap_zero_two : wrap 0 2 = 0 := by
  have hv : (0 : ℝ) + 2 * 0.5 = 1 := by norm_num
  have hd : (1 : ℝ) / 2 = 0.5 := by norm_num
  unfold wrap pymod
  rw [hv, hd, floor_point_five]
  norm_num

lemma wrap_one_two : wrap 1 2 = -1 := by
  have hv : (1 : ℝ) + 2 * 0.5 = 2 := by norm_num
  have hd : (2 : ℝ) / 2 = 1 := by norm_num
  unfold wrap pymod
  rw [hv, hd, Int.floor_one]
  norm_num

lemma sdf_origin : sdfPoint ⟨0, 0, 0⟩ (2, 2) = -1 := by
  unfold sdfPoint wrapPoint
  simp only [wrap_zero_two]
  norm_num [Real.sqrt_zero]

lemma sdf_surface : sdfPoint ⟨1, 0, 0⟩ (2, 2) = 0 := by
  unfold sdfPoint wrapPoint
  simp only [wrap_one_two, wrap_zero_two]
  norm_num [Real.sqrt_one]

lemma cpuLoop_fst (d : ℝ × ℝ) (ps : List Pos3) : (cpuLoop d ps).1 = ps := by
  induction ps with
  | nil => rfl
  | cons p rest ih => simp [cpuLoop, wrapPoint, ih]

lemma cpuLoop_snd (d : ℝ × ℝ) (ps : List Pos3) :
    (cpuLoop d ps).2 = ps.map fun p => sdfPoint p d := by
  induction ps with
  | nil => rfl
  | cons p rest ih => simp [cpuLoop, sdfPoint, ih]

lemma wrap_eq_wrapSpec (v p : ℝ) : wrap v p = wrapSpec v p := by
  have h05 : p * 0.5 = p / 2 := by ring
  unfold wrap wrapSpec
  rw [h05]

lemma sdfPoint_eq_sdfSpec (pos : Pos3) (dims : ℝ × ℝ) :
    sdfPoint pos dims = sdfSpec pos dims := by
  unfold sdfPoint wrapPoint sdfSpec
  simp [wrap_eq_wrapSpec]

lemma sdfPoint_ge (pos : Pos3) (dims : ℝ × ℝ) : -1 ≤ sdfPoint pos dims := by
  unfold sdfPoint
  have h := Real.sqrt_nonneg
    (((wrapPoint pos dims).2.x) ^ 2 + ((wrapPoint pos dims).2.y) ^ 2 +
      ((wrapPoint pos dims).2.z) ^ 2)
  norm_num

/-- C1: for every position in a batch, the CPU path computes the SDF
value by wrapping `x` with period `dims[0]` and `z` with period
`dims[1]` via `wrap(v, p) = ((v + p/2) mod p) - p/2`, leaving `y`
unchanged, and returning the Euclidean norm of the resulting 3-vector
minus `1.0`. -/
theorem cpu_path_computes_spec_formula (data : InputData) :
    (cpuFallbackSt data).2 = data.positions.map fun p => sdfSpec p data.dims := by
  have hfun : (fun p => sdfPoint p data.dims) = fun p => sdfSpec p data.dims :=
    funext fun p => sdfPoint_eq_sdfSpec p data.dims
  show (cpuLoop data.dims data.positions).2 = _
  rw [cpuLoop_snd, hfun]

/-- C2: for every period `p > 0` and every `v`, `wrap v p` lies in
`[-p/2, p/2)` and is invariant under shifting `v` by any integer
multiple of `p`; moreover `wrap (-0.6) 1 = 0.4` (the modulo is
non-negative), not `-0.6`. -/
theorem wrap_range_periodicity (v p : ℝ) (hp : 0 < p) :
    (-(p / 2) ≤ wrap v p ∧ wrap v p < p / 2) ∧
      (∀ k : ℤ, wrap (v + k * p) p = wrap v p) ∧
      wrap (-0.6) 1 = 0.4 :=
  ⟨⟨wrap_lower v p hp, wrap_upper v p hp⟩,
    fun k => wrap_periodic v p k hp.ne', wrap_example⟩

/-- C2 witness: the theorem instantiated at `v = 0.3`, `p = 1`. -/
theorem wrap_range_periodicity_witness :
    (0 : ℝ) < 1 ∧
      ((-(1 / 2 : ℝ) ≤ wrap 0.3 1 ∧ wrap 0.3 1 < 1 / 2) ∧
        (∀ k : ℤ, wrap (0.3 + k * 1) 1 = wrap 0.3 1) ∧
        wrap (-0.6) 1 = 0.4) :=
  ⟨one_pos, wrap_range_periodicity 0.3 1 one_pos⟩

/-- C3: on both the CPU and the accelerated path, `compute` on a batch
of `N` positions returns exactly `N` values, and the value at index `i`
is obtained by applying one fixed per-point function (depending only on
the path and `dims`) to `positions[i]`. -/
theorem compute_length_and_pointwise (h : Handler) (acc : AccelOutcome) (d : ℝ × ℝ) :
    ∃ g : Pos3 → ℝ, ∀ ps : List Pos3,
      (computeSt h acc ⟨ps, d⟩).2.2 = ps.map g ∧
        ((computeSt h acc ⟨ps, d⟩).2.2).length = ps.length := by
  by_cases hav : h.available = false
  · refine ⟨fun p => sdfPoint p d, fun ps => ?_⟩
    simp [computeSt, hav, cpuFallbackSt, cpuLoop_snd]
  · cases acc with
    | fail =>
      refine ⟨fun p => sdfPoint p d, fun ps => ?_⟩
      simp [computeSt, hav, cpuFallbackSt, cpuLoop_snd]
    | ok f =>
      refine ⟨fun p => f p.x p.y p.z d.1 d.2, fun ps => ?_⟩
      simp [computeSt, hav, mkInput, List.map_map, Function.comp]

/-- C4 counterexample: with `dims = (0.0, 1.0)` — a zero period — and a
one-point batch, `compute` does not raise `ValidationError`: it returns
a normal one-element result (in numpy arithmetic that element is NaN,
but the call completes without any error). -/
theorem compute_no_validation_zero_dims :
    ((computeSt ⟨false⟩ .fail ⟨[⟨0, 0, 0⟩], (0, 1)⟩).2.2).length = 1 := by
  simp [computeSt, cpuFallbackSt, cpuLoop]

/-- C4 amended: `compute` performs no validation of `dims` and never
fails: for every handler, accelerator outcome and input — including
zero or otherwise invalid periods — it returns a result with one value
per input position. -/
theorem compute_never_validates (h : Handler) (acc : AccelOutcome) (data : InputData) :
    ((computeSt h acc data).2.2).length = data.positions.length := by
  by_cases hav : h.available = false
  · simp [computeSt, hav, cpuFallbackSt, cpuLoop_snd]
  · cases acc with
    | fail => simp [computeSt, hav, cpuFallbackSt, cpuLoop_snd]
    | ok f => simp [computeSt, hav, mkInput]

/-- C5: if the accelerator invocation fails at call time, the error is
caught and the whole batch is answered by `_cpu_fallback`; the caller
never sees the failure as an error. -/
theorem accel_failure_falls_back (h : Handler) (data : InputData)
    (hav : h.available = true) :
    (computeSt h .fail data).2.2 = (cpuFallbackSt data).2 := by
  simp [computeSt, hav]

/-- C5 witness: the theorem instantiated at an available handler and a
concrete one-point batch. -/
theorem accel_failure_falls_back_witness :
    (Handler.mk true).available = true ∧
      (computeSt ⟨true⟩ .fail ⟨[⟨0, 0, 0⟩], (2, 2)⟩).2.2 =
        (cpuFallbackSt ⟨[⟨0, 0, 0⟩], (2, 2)⟩).2 :=
  ⟨rfl, accel_failure_falls_back ⟨true⟩ ⟨[⟨0, 0, 0⟩], (2, 2)⟩ rfl⟩

/-- C6 counterexample: on an available handler the interpreter
invocation is attempted even for an empty batch — `compute` has no
empty-batch guard, so the claim that the accelerator is not invoked
when `N = 0` is false. -/
theorem empty_batch_still_invokes_accel :
    accelInvoked ⟨true⟩ ⟨[], (1, 1)⟩ = true := rfl

/-- C6 amended: for every dims, evaluating an empty batch returns an
empty result without error on either path; however, on the available
path the accelerator is still invoked (on a zero-row tensor) — there is
no empty-batch short-circuit. -/
theorem empty_batch_empty_result (h : Handler) (acc : AccelOutcome) (d : ℝ × ℝ) :
    (computeSt h acc ⟨[], d⟩).2.2 = [] ∧
      (h.available = true → accelInvoked h ⟨[], d⟩ = true) := by
  refine ⟨?_, fun hav => hav⟩
  by_cases hav : h.available = false
  · simp [computeSt, hav, cpuFallbackSt, cpuLoop]
  · cases acc with
    | fail => simp [computeSt, hav, cpuFallbackSt, cpuLoop]
    | ok f => simp [computeSt, hav, mkInput]

/-- C6 amended witness: instantiated at an available handler with a
failing invocation. -/
theorem empty_batch_empty_result_witness :
    (computeSt ⟨true⟩ .fail ⟨[], (1, 1)⟩).2.2 = [] ∧
      accelInvoked ⟨true⟩ ⟨[], (1, 1)⟩ = true :=
  ⟨(empty_batch_empty_result ⟨true⟩ .fail (1, 1)).1,
    (empty_batch_empty_result ⟨true⟩ .fail (1, 1)).2 rfl⟩

/-- C7: `compute` never writes the stored availability flag — the
handler state after any call equals the state before it — and whenever
the capability is not available the call takes the CPU path. -/
theorem capability_immutable (h : Handler) (acc : AccelOutcome) (data : InputData) :
    (computeSt h acc data).1 = h ∧
      (h.available = false → (computeSt h acc data).2.2 = (cpuFallbackSt data).2) := by
  constructor
  · by_cases hav : h.available = false
    · simp [computeSt, hav]
    · cases acc with
      | fail => simp [computeSt, hav]
      | ok f => simp [computeSt, hav]
  · intro hav
    simp [computeSt, hav]

/-- C7 witness: instantiated at an unavailable handler. -/
theorem capability_immutable_witness :
    (computeSt ⟨false⟩ .fail ⟨[], (1, 1)⟩).1 = ⟨false⟩ ∧
      (computeSt ⟨false⟩ .fail ⟨[], (1, 1)⟩).2.2 = (cpuFallbackSt ⟨[], (1, 1)⟩).2 :=
  ⟨(capability_immutable ⟨false⟩ .fail ⟨[], (1, 1)⟩).1,
    (capability_immutable ⟨false⟩ .fail ⟨[], (1, 1)⟩).2 rfl⟩

/-- C8: with `dims = (2.0, 2.0)`, the CPU path yields exactly `-1.0`
for the position `(0, 0, 0)` (sphere center) and exactly `0.0` for the
position `(1.0, 0, 0)` (sphere surface). -/
theorem sdf_center_and_surface :
    (cpuFallbackSt ⟨[⟨0, 0, 0⟩], (2, 2)⟩).2 = [-1] ∧
      (cpuFallbackSt ⟨[⟨1, 0, 0⟩], (2, 2)⟩).2 = [0] := by
  constructor
  · show (cpuLoop (2, 2) [⟨0, 0, 0⟩]).2 = _
    rw [cpuLoop_snd]
    simp [sdf_origin]
  · show (cpuLoop (2, 2) [⟨1, 0, 0⟩]).2 = _
    rw [cpuLoop_snd]
    simp [sdf_surface]

/-- C9: neither `compute` nor `_cpu_fallback` modifies the caller's
input: the input data after any call equals the input data before it,
and the per-iteration copy means the loop leaves every position array
unchanged. -/
theorem inputs_never_modified (h : Handler) (acc : AccelOutcome) (data : InputData) :
    (computeSt h acc data).2.1 = data ∧
      (cpuFallbackSt data).1 = data ∧
      ∀ (d : ℝ × ℝ) (ps : List Pos3), (cpuLoop d ps).1 = ps := by
  refine ⟨?_, rfl, fun d ps => cpuLoop_fst d ps⟩
  by_cases hav : h.available = false
  · simp [computeSt, hav, cpuFallbackSt]
  · cases acc with
    | fail => simp [computeSt, hav, cpuFallbackSt]
    | ok f => simp [computeSt, hav]

/-- C10: every value produced by the CPU path is at least `-1.0`, since
it is a non-negative Euclidean norm minus `1.0`. -/
theorem cpu_values_ge_neg_one (data : InputData) (r : ℝ)
    (hr : r ∈ (cpuFallbackSt data).2) : -1 ≤ r := by
  have hsnd : (cpuFallbackSt data).2 =
      data.positions.map fun p => sdfPoint p data.dims := cpuLoop_snd _ _
  rw [hsnd] at hr
  obtain ⟨p, hp, hpr⟩ := List.mem_map.mp hr
  rw [← hpr]
  exact sdfPoint_ge p data.dims

/-- C10 witness: the value at the origin with `dims = (2, 2)` is a
member of the CPU result and is at least `-1`. -/
theorem cpu_values_ge_neg_one_witness :
    (-1 : ℝ) ∈ (cpuFallbackSt ⟨[⟨0, 0, 0⟩], (2, 2)⟩).2 ∧ (-1 : ℝ) ≤ -1 := by
  have hm : (-1 : ℝ) ∈ (cpuFallbackSt ⟨[⟨0, 0, 0⟩], (2, 2)⟩).2 := by
    show (-1 : ℝ) ∈ (cpuLoop (2, 2) [⟨0, 0, 0⟩]).2
    rw [cpuLoop_snd]
    simp [sdf_origin]
  exact ⟨hm, cpu_values_ge_neg_one ⟨[⟨0, 0, 0⟩], (2, 2)⟩ (-1) hm⟩

end
